import Mathlib

/-!
Shallow embedding of PyWO `core.py`: the geometric value types, the geometry
resolution computations (`Window.geometry`, `Window.move_resize`) and the
event dispatch registry (`EventDispatcher`), together with theorems settling
the specification claims.

Modelling conventions:
* Python integers are `Int`; Python 2 floor division `/` on integers is
  `Int.fdiv` and `%` is `Int.fmod`.
* Gravity fractions (Python floats such as `0.5`) are rationals `ℚ`.
* An absent size hint field is `0` (Python truthiness `if hints.max_width:`).
* Code paths that raise (`KeyError`, `UnboundLocalError`, `RuntimeError`)
  return `none` / an error marker.
-/

namespace PyWO

/-- `core.py` `Gravity` (lines 28-35): an anchor point as a fraction of the
window's width and height. -/
structure Gravity where
  x : ℚ
  y : ℚ
deriving DecidableEq

/-- `core.py` `Gravity.invert` (lines 58-64).  The local variables `x` and
`y` are assigned only under their respective flags, so `return Gravity(x, y)`
raises `UnboundLocalError` when either flag is false; that raise is modelled
as `none`. -/
def Gravity.invert (g : Gravity) (vertical horizontal : Bool) : Option Gravity :=
  match (if horizontal then some (1 - g.x) else none),
        (if vertical then some (1 - g.y) else none) with
  | some x, some y => some ⟨x, y⟩
  | _, _ => none

/-- `core.py` `Borders` (lines 165-187): window frame extents. -/
structure Borders where
  left : Int
  right : Int
  top : Int
  bottom : Int
deriving DecidableEq

/-- `core.py` `Geometry` (lines 119-162): position plus size.  The stored
position is the top-left corner; it may be fractional when a gravity anchor
is used at construction. -/
structure Geometry where
  x : ℚ
  y : ℚ
  width : Int
  height : Int
deriving DecidableEq

/-- `core.py` `Geometry.__init__` (lines 131-136): the supplied point is the
gravity anchor, the stored top-left is back-computed from it. -/
def geometryMk (x y width height : Int) (gravity : Gravity) : Geometry :=
  { x := (x : ℚ) - (width : ℚ) * gravity.x
    y := (y : ℚ) - (height : ℚ) * gravity.y
    width := width
    height := height }

/-- `core.py` `Window.geometry` (lines 561-578): given the raw
manager-reported geometry and the raw border extents, add the border totals
to the size; when the window manager has the adjust quirk
(`self.__adjust_geometry`), shift the position left/up by the left/top
border. -/
def effectiveGeometry (x y width height : Int) (b : Borders) (adjust : Bool) : Geometry :=
  let x' := if adjust then x - b.left else x
  let y' := if adjust then y - b.top else y
  geometryMk x' y' (width + b.left + b.right) (height + b.top + b.bottom) ⟨0, 0⟩

/-- The `WM_NORMAL_HINTS` fields read by `Window.move_resize`; a zero field
is "absent" (the code guards each use with Python truthiness).
`win_gravity_static` models `hints.win_gravity == X.StaticGravity`. -/
structure SizeHints where
  win_gravity_static : Bool
  min_width : Int
  min_height : Int
  max_width : Int
  max_height : Int
  width_inc : Int
  height_inc : Int
  base_width : Int
  base_height : Int
deriving DecidableEq

/-- `core.py` lines 599-600 and 604-605: clamp the content width down to
`max_width` (when nonzero), then up to `min_width` (when nonzero). -/
def clampWidth (h? : Option SizeHints) (w : Int) : Int :=
  let w1 := match h? with
    | some h => if h.max_width ≠ 0 then min w h.max_width else w
    | none => w
  match h? with
  | some h => if h.min_width ≠ 0 then max w1 h.min_width else w1
  | none => w1

/-- `core.py` lines 601-602 and 606-607: clamp the content height down to
`max_height` (when nonzero), then up to `min_height` (when nonzero). -/
def clampHeight (h? : Option SizeHints) (h : Int) : Int :=
  let h1 := match h? with
    | some hh => if hh.max_height ≠ 0 then min h hh.max_height else h
    | none => h
  match h? with
  | some hh => if hh.min_height ≠ 0 then max h1 hh.min_height else h1
  | none => h1

/-- `core.py` lines 610-613: the width snap base, `base_width` when nonzero,
else the current content width (`current[2]`) modulo the increment. -/
def incBaseW (h : SizeHints) (curW : Int) : Int :=
  if h.base_width ≠ 0 then h.base_width else Int.fmod curW h.width_inc

/-- `core.py` lines 619-622: the height snap base, `base_height` when
nonzero, else the current content height (`current[3]`) modulo the
increment. -/
def incBaseH (h : SizeHints) (curH : Int) : Int :=
  if h.base_height ≠ 0 then h.base_height else Int.fmod curH h.height_inc

/-- `core.py` lines 614-615: `((width - base) / width_inc) * width_inc + base`
with Python 2 floor division. -/
def snappedW (h : SizeHints) (curW w : Int) : Int :=
  (Int.fdiv (w - incBaseW h curW) h.width_inc) * h.width_inc + incBaseW h curW

/-- `core.py` lines 623-624: the floor-snapped height. -/
def snappedH (h : SizeHints) (curH hh : Int) : Int :=
  (Int.fdiv (hh - incBaseH h curH) h.height_inc) * h.height_inc + incBaseH h curH

/-- `core.py` lines 609-617: snap the width to the increment grid, adding one
extra increment when the snapped width fell below a present `min_width`. -/
def snapWidth (h? : Option SizeHints) (curW w : Int) : Int :=
  match h? with
  | none => w
  | some h =>
    if h.width_inc ≠ 0 then
      if h.min_width ≠ 0 ∧ snappedW h curW w < h.min_width
      then snappedW h curW w + h.width_inc
      else snappedW h curW w
    else w

/-- `core.py` lines 618-626: snap the height to the increment grid.  Note
the guard on line 625 is `hints.height_inc and height < hints.min_height`
(not `hints.min_height and ...` as in the width branch on line 616). -/
def snapHeight (h? : Option SizeHints) (curH h : Int) : Int :=
  match h? with
  | none => h
  | some hh =>
    if hh.height_inc ≠ 0 then
      if hh.height_inc ≠ 0 ∧ snappedH hh curH h < hh.min_height
      then snappedH hh curH h + hh.height_inc
      else snappedH hh curH h
    else h

/-- `core.py` lines 595-597: for applications with static win-gravity the
left border is added back into the x coordinate. -/
def staticOffsetX (h? : Option SizeHints) (b : Borders) : Int :=
  match h? with
  | some h => if h.win_gravity_static then b.left else 0
  | none => 0

/-- `core.py` lines 595-597: for applications with static win-gravity the
top border is added back into the y coordinate. -/
def staticOffsetY (h? : Option SizeHints) (b : Borders) : Int :=
  match h? with
  | some h => if h.win_gravity_static then b.top else 0
  | none => 0

/-- Result of `Window.move_resize`: the arguments finally passed to
`self._win.configure` (line 631).  The position may be fractional because
the anchor adjustment multiplies by gravity fractions. -/
structure MoveResizeResult where
  x : ℚ
  y : ℚ
  width : Int
  height : Int
deriving DecidableEq

/-- `core.py` `Window.move_resize` (lines 580-631): subtract the borders from
the requested size, apply the static-gravity position fix, clamp to
max/min hints, snap to increments, then shift the position by the size delta
scaled by the resize-anchor gravity when the size changed. -/
def moveResize (gx gy gw gh : Int) (b : Borders) (curW curH : Int)
    (h? : Option SizeHints) (onResize : Gravity) : MoveResizeResult :=
  let width := gw - (b.left + b.right)
  let height := gh - (b.top + b.bottom)
  let x := gx + staticOffsetX h? b
  let y := gy + staticOffsetY h? b
  let w2 := snapWidth h? curW (clampWidth h? width)
  let h2 := snapHeight h? curH (clampHeight h? height)
  if (w2, h2) ≠ (width, height) then
    { x := (x : ℚ) + ((width - w2 : Int) : ℚ) * onResize.x
      y := (y : ℚ) + ((height - h2 : Int) : ℚ) * onResize.y
      width := w2
      height := h2 }
  else
    { x := (x : ℚ), y := (y : ℚ), width := w2, height := h2 }

/-- An event handler as seen by `EventDispatcher`: its transport-level event
`mask`, the event `types` it handles, and an identity `hid` distinguishing
distinct handler objects. -/
structure Handler where
  hid : Nat
  mask : Nat
  types : List Nat
deriving DecidableEq

/-- The inner map of `self.__handlers`: event type to handler. -/
abbrev WinHandlers := List (Nat × Handler)

/-- `self.__handlers` (line 205): window id to per-type handler map.
Python dicts are modelled as association lists whose keys are unique in any
state reachable by the dispatcher's operations. -/
abbrev Registry := List (Nat × WinHandlers)

/-- Dictionary lookup `d[k]` / `k in d`. -/
def alistGet? {β : Type} : List (Nat × β) → Nat → Option β
  | [], _ => none
  | (k, v) :: rest, k' => if k = k' then some v else alistGet? rest k'

/-- Dictionary update `d[k] = v`: replace the entry when the key is present,
append it otherwise. -/
def alistSet {β : Type} : List (Nat × β) → Nat → β → List (Nat × β)
  | [], k, v => [(k, v)]
  | (k', v') :: rest, k, v =>
    if k' = k then (k, v) :: rest else (k', v') :: alistSet rest k v

/-- Dictionary deletion `del d[k]` (for a present key; absent keys are left
alone, matching the guarded deletes in `unregister`). -/
def alistErase {β : Type} : List (Nat × β) → Nat → List (Nat × β)
  | [], _ => []
  | (k', v') :: rest, k => if k' = k then rest else (k', v') :: alistErase rest k

/-- `set([handler.mask for handler in self.__handlers[window.id].values()])`
(lines 233-234 and 256-257). -/
def maskSet (inner : WinHandlers) : Finset Nat :=
  (inner.map (fun p => p.2.mask)).toFinset

/-- `core.py` `EventDispatcher.register` (lines 222-234), registry part: make
sure the window has an entry, store the handler under each of its declared
types, and return the new mask set for the window. -/
def register (w : Nat) (h : Handler) (reg : Registry) : Registry × Finset Nat :=
  let inner := (alistGet? reg w).getD []
  let inner' := h.types.foldl (fun m t => alistSet m t h) inner
  (alistSet reg w inner', maskSet inner')

/-- The deletion part of `unregister` (lines 242-250): with `none` as handler
the window's whole map is cleared; with a handler, the entries at its
declared types are deleted (by type only — the stored handler is never
compared with the given one). -/
def removeTypes (h? : Option Handler) (inner : WinHandlers) : WinHandlers :=
  match h? with
  | none => []
  | some h => h.types.foldl (fun m t => alistErase m t) inner

/-- `core.py` `EventDispatcher.unregister` (lines 236-257).  When the
window's map becomes empty its registry entry is dropped and the empty mask
set is returned.  For a window with no registry entry, line 251
(`self.__handlers[window.id]`) raises `KeyError`, modelled as `none`; the
registry is unchanged at that point. -/
def unregister (w : Nat) (h? : Option Handler) (reg : Registry) :
    Option (Registry × Finset Nat) :=
  match alistGet? reg w with
  | none => none
  | some inner =>
    let inner' := removeTypes h? inner
    if inner' = [] then some (alistErase reg w, (∅ : Finset Nat))
    else some (alistSet reg w inner', maskSet inner')

/-- Outcome of `EventDispatcher.__dispatch` for one event. -/
inductive DispatchResult where
  /-- Unknown window: logged (`logging.error`) and dropped (lines 261-263). -/
  | unknownWindow : DispatchResult
  /-- Known window, no handler for the event type: silently skipped
  (lines 265-267). -/
  | skipped : DispatchResult
  /-- `win_handlers[event.type].handle_event(event)` (line 268). -/
  | delivered : Handler → DispatchResult
deriving DecidableEq

/-- `core.py` `EventDispatcher.__dispatch` (lines 259-268) on an event with
window id `w` and event type `t`. -/
def dispatch (reg : Registry) (w t : Nat) : DispatchResult :=
  match alistGet? reg w with
  | none => DispatchResult.unknownWindow
  | some inner =>
    match alistGet? inner t with
    | none => DispatchResult.skipped
    | some h => DispatchResult.delivered h

/-- A registry operation, for stating invariants over arbitrary operation
sequences. -/
inductive RegOp where
  | add : Nat → Handler → RegOp
  | remove : Nat → Option Handler → RegOp
deriving DecidableEq

/-- Apply one operation to the registry; an operation that raises
(`KeyError`) leaves the registry unchanged, since the exception propagates
before any mutation. -/
def applyOp (reg : Registry) : RegOp → Registry
  | RegOp.add w h => (register w h reg).1
  | RegOp.remove w h? =>
    match unregister w h? reg with
    | none => reg
    | some (reg', _) => reg'

/-- At most one handler per (window, event-type) pair: the outer keys are
unique and every inner map's keys are unique. -/
def WFRegistry (reg : Registry) : Prop :=
  (reg.map Prod.fst).Nodup ∧ ∀ p ∈ reg, (p.2.map Prod.fst).Nodup

/-- Dispatcher lifecycle state: the registry plus the `threading.Thread`
status of the `EventDispatcher` object (`started` is whether `start()` has
ever been called, `alive` is `isAlive()`). -/
structure DispatcherState where
  handlers : Registry
  started : Bool
  alive : Bool
deriving DecidableEq

/-- `threading.Thread.start`: starts the run loop the first time, raises
`RuntimeError` (modelled as `none`) when the thread was already started,
including after it has finished. -/
def threadStart (s : DispatcherState) : Option DispatcherState :=
  if s.started then none else some { s with started := true, alive := true }

/-- `EventDispatcher.register` with its lifecycle side effect (lines
231-232): after updating the registry, `if not self.isAlive(): self.start()`.
A `RuntimeError` from `start` is modelled by returning `none` for the mask
set; the registry update has already happened at that point. -/
def registerD (w : Nat) (h : Handler) (s : DispatcherState) :
    DispatcherState × Option (Finset Nat) :=
  let res := register w h s.handlers
  let s' := { s with handlers := res.1 }
  if s'.alive then (s', some res.2)
  else
    match threadStart s' with
    | some s'' => (s'', some res.2)
    | none => (s', none)

/-- `EventDispatcher.unregister` lifted to the dispatcher state. -/
def unregisterD (w : Nat) (h? : Option Handler) (s : DispatcherState) :
    DispatcherState × Option (Finset Nat) :=
  match unregister w h? s.handlers with
  | none => (s, none)
  | some (reg', masks) => ({ s with handlers := reg' }, some masks)

/-- One `while self.__handlers:` check of `EventDispatcher.run` (line 215):
when the registry is empty the loop exits and the thread dies. -/
def loopCheck (s : DispatcherState) : DispatcherState :=
  if s.handlers = [] then { s with alive := false } else s

/-! ### Association-list lemmas -/

theorem alistGet?_set_self {β : Type} (m : List (Nat × β)) (k : Nat) (v : β) :
    alistGet? (alistSet m k v) k = some v := by
  induction m with
  | nil => simp [alistSet, alistGet?]
  | cons p rest ih =>
    obtain ⟨k', v'⟩ := p
    by_cases h : k' = k
    · simp [alistSet, h, alistGet?]
    · simp [alistSet, h, alistGet?, ih]

theorem alistGet?_set_ne {β : Type} (m : List (Nat × β)) (k k' : Nat) (v : β)
    (h : k ≠ k') : alistGet? (alistSet m k v) k' = alistGet? m k' := by
  induction m with
  | nil => simp [alistSet, alistGet?, h]
  | cons p rest ih =>
    obtain ⟨k0, v0⟩ := p
    by_cases h0 : k0 = k
    · subst h0
      simp [alistSet, alistGet?, h]
    · simp [alistSet, h0, alistGet?, ih]

theorem mem_alistSet {β : Type} {m : List (Nat × β)} {k : Nat} {v : β} {p : Nat × β}
    (hp : p ∈ alistSet m k v) : p = (k, v) ∨ p ∈ m := by
  induction m with
  | nil => simpa [alistSet] using hp
  | cons q rest ih =>
    obtain ⟨k0, v0⟩ := q
    by_cases h0 : k0 = k
    · rcases List.mem_cons.mp (by simpa [alistSet, h0] using hp) with h | h
      · exact Or.inl h
      · exact Or.inr (List.mem_cons_of_mem _ h)
    · rcases List.mem_cons.mp (by simpa [alistSet, h0] using hp) with h | h
      · exact Or.inr (h ▸ List.mem_cons_self _ _)
      · rcases ih h with h' | h'
        · exact Or.inl h'
        · exact Or.inr (List.mem_cons_of_mem _ h')

theorem mem_keys_alistSet {β : Type} {m : List (Nat × β)} {k k' : Nat} {v : β}
    (h : k' ∈ (alistSet m k v).map Prod.fst) : k' = k ∨ k' ∈ m.map Prod.fst := by
  rcases List.mem_map.mp h with ⟨p, hp, hk⟩
  rcases mem_alistSet hp with rfl | hp'
  · exact Or.inl hk.symm
  · exact Or.inr (hk ▸ List.mem_map_of_mem Prod.fst hp')

theorem nodupKeys_alistSet {β : Type} {m : List (Nat × β)} (k : Nat) (v : β)
    (h : (m.map Prod.fst).Nodup) : ((alistSet m k v).map Prod.fst).Nodup := by
  induction m with
  | nil => simp [alistSet]
  | cons q rest ih =>
    obtain ⟨k0, v0⟩ := q
    simp only [List.map_cons, List.nodup_cons] at h
    by_cases h0 : k0 = k
    · subst h0
      simpa [alistSet] using h
    · simp only [alistSet, h0, if_false, List.map_cons, List.nodup_cons]
      refine ⟨fun hmem => ?_, ih h.2⟩
      rcases mem_keys_alistSet hmem with h' | h'
      · exact h0 h'
      · exact h.1 h'

theorem alistErase_sublist {β : Type} (m : List (Nat × β)) (k : Nat) :
    List.Sublist (alistErase m k) m := by
  induction m with
  | nil => simp [alistErase]
  | cons q rest ih =>
    obtain ⟨k0, v0⟩ := q
    by_cases h0 : k0 = k
    · rw [alistErase, if_pos h0]
      exact List.sublist_cons_self (k0, v0) rest
    · rw [alistErase, if_neg h0]
      exact ih.cons₂ (k0, v0)

theorem alistGet?_eq_none_of_not_mem {β : Type} {m : List (Nat × β)} {k : Nat}
    (h : k ∉ m.map Prod.fst) : alistGet? m k = none := by
  induction m with
  | nil => rfl
  | cons q rest ih =>
    obtain ⟨k0, v0⟩ := q
    simp only [List.map_cons, List.mem_cons, not_or] at h
    have h0 : ¬k0 = k := fun hh => h.1 hh.symm
    simp [alistGet?, h0, ih h.2]

theorem alistGet?_erase_self {β : Type} {m : List (Nat × β)} {k : Nat}
    (h : (m.map Prod.fst).Nodup) : alistGet? (alistErase m k) k = none := by
  induction m with
  | nil => rfl
  | cons q rest ih =>
    obtain ⟨k0, v0⟩ := q
    simp only [List.map_cons, List.nodup_cons] at h
    by_cases h0 : k0 = k
    · subst h0
      simpa [alistErase] using alistGet?_eq_none_of_not_mem h.1
    · simp [alistErase, h0, alistGet?, ih h.2]

theorem mem_of_alistGet?_eq_some {β : Type} {m : List (Nat × β)} {k : Nat} {v : β}
    (h : alistGet? m k = some v) : (k, v) ∈ m := by
  induction m with
  | nil => simp [alistGet?] at h
  | cons q rest ih =>
    obtain ⟨k0, v0⟩ := q
    by_cases h0 : k0 = k
    · subst h0
      have hv : v0 = v := by simpa [alistGet?] using h
      exact hv ▸ List.mem_cons_self _ _
    · simp only [alistGet?, h0, if_false] at h
      exact List.mem_cons_of_mem _ (ih h)

theorem alistErase_of_not_mem {β : Type} {m : List (Nat × β)} {k : Nat}
    (h : k ∉ m.map Prod.fst) : alistErase m k = m := by
  induction m with
  | nil => rfl
  | cons q rest ih =>
    obtain ⟨k0, v0⟩ := q
    simp only [List.map_cons, List.mem_cons, not_or] at h
    have h0 : ¬k0 = k := fun hh => h.1 hh.symm
    simp [alistErase, h0, ih h.2]

theorem alistSet_of_get_eq {β : Type} {m : List (Nat × β)} {k : Nat} {v : β}
    (h : alistGet? m k = some v) : alistSet m k v = m := by
  induction m with
  | nil => simp [alistGet?] at h
  | cons q rest ih =>
    obtain ⟨k0, v0⟩ := q
    by_cases h0 : k0 = k
    · subst h0
      have hv : v0 = v := by simpa [alistGet?] using h
      subst hv
      simp [alistSet]
    · simp only [alistGet?, h0, if_false] at h
      simp [alistSet, h0, ih h]

theorem alistGet?_foldl_set {ts : List Nat} {m : WinHandlers} {h : Handler} {t : Nat}
    (ht : t ∈ ts ∨ alistGet? m t = some h) :
    alistGet? (ts.foldl (fun acc t' => alistSet acc t' h) m) t = some h := by
  induction ts generalizing m with
  | nil =>
    rcases ht with h' | h'
    · simp at h'
    · simpa using h'
  | cons t0 ts ih =>
    simp only [List.foldl_cons]
    apply ih
    rcases ht with hmem | hget
    · rcases List.mem_cons.mp hmem with rfl | h'
      · exact Or.inr (alistGet?_set_self _ _ _)
      · exact Or.inl h'
    · by_cases h0 : t0 = t
      · subst h0
        exact Or.inr (alistGet?_set_self _ _ _)
      · exact Or.inr ((alistGet?_set_ne _ _ _ _ h0).trans hget)

theorem nodupKeys_foldl_set {ts : List Nat} {h : Handler} {m : WinHandlers}
    (hm : (m.map Prod.fst).Nodup) :
    (((ts.foldl (fun acc t' => alistSet acc t' h) m)).map Prod.fst).Nodup := by
  induction ts generalizing m with
  | nil => simpa using hm
  | cons t0 ts ih =>
    simpa only [List.foldl_cons] using ih (nodupKeys_alistSet _ _ hm)

theorem foldl_erase_sublist (ts : List Nat) (m : WinHandlers) :
    List.Sublist (ts.foldl (fun acc t => alistErase acc t) m) m := by
  induction ts generalizing m with
  | nil => exact List.Sublist.refl m
  | cons t0 ts ih =>
    simpa only [List.foldl_cons] using (ih (alistErase m t0)).trans (alistErase_sublist m t0)

theorem foldl_erase_of_disjoint {ts : List Nat} {m : WinHandlers}
    (h : ∀ t ∈ ts, t ∉ m.map Prod.fst) :
    ts.foldl (fun acc t => alistErase acc t) m = m := by
  induction ts with
  | nil => rfl
  | cons t0 ts ih =>
    simp only [List.foldl_cons]
    rw [alistErase_of_not_mem (h t0 (List.mem_cons_self _ _))]
    exact ih fun t htl => h t (List.mem_cons_of_mem _ htl)

theorem removeTypes_sublist (h? : Option Handler) (inner : WinHandlers) :
    List.Sublist (removeTypes h? inner) inner := by
  cases h? with
  | none => simp [removeTypes]
  | some h => exact foldl_erase_sublist h.types inner

/-! ### Registry well-formedness is preserved -/

theorem wfRegistry_nil : WFRegistry [] := by
  constructor
  · simp
  · intro p hp
    simp at hp

theorem wfRegistry_register {reg : Registry} (w : Nat) (h : Handler)
    (hwf : WFRegistry reg) : WFRegistry (register w h reg).1 := by
  obtain ⟨houter, hinner⟩ := hwf
  constructor
  · exact nodupKeys_alistSet _ _ houter
  · intro p hp
    simp only [register] at hp
    rcases mem_alistSet hp with rfl | hp'
    · apply nodupKeys_foldl_set
      cases hg : alistGet? reg w with
      | none => simp [hg]
      | some inner =>
        simpa [hg] using hinner _ (mem_of_alistGet?_eq_some hg)
    · exact hinner _ hp'

theorem wfRegistry_unregister {reg reg' : Registry} {w : Nat} {h? : Option Handler}
    {ms : Finset Nat} (hwf : WFRegistry reg)
    (hu : unregister w h? reg = some (reg', ms)) : WFRegistry reg' := by
  obtain ⟨houter, hinner⟩ := hwf
  unfold unregister at hu
  cases hg : alistGet? reg w with
  | none => simp [hg] at hu
  | some inner =>
    simp only [hg] at hu
    have hinn : (inner.map Prod.fst).Nodup :=
      hinner _ (mem_of_alistGet?_eq_some hg)
    split at hu
    · simp only [Option.some.injEq, Prod.mk.injEq] at hu
      obtain ⟨h1, _⟩ := hu
      subst h1
      refine ⟨?_, ?_⟩
      · exact houter.sublist ((alistErase_sublist reg w).map Prod.fst)
      · intro p hp
        exact hinner _ ((alistErase_sublist reg w).subset hp)
    · simp only [Option.some.injEq, Prod.mk.injEq] at hu
      obtain ⟨h1, _⟩ := hu
      subst h1
      refine ⟨?_, ?_⟩
      · exact nodupKeys_alistSet _ _ houter
      · intro p hp
        rcases mem_alistSet hp with rfl | hp'
        · exact hinn.sublist ((removeTypes_sublist h? inner).map Prod.fst)
        · exact hinner _ hp'

theorem wfRegistry_applyOp {reg : Registry} (hwf : WFRegistry reg) (op : RegOp) :
    WFRegistry (applyOp reg op) := by
  cases op with
  | add w h => exact wfRegistry_register w h hwf
  | remove w h? =>
    simp only [applyOp]
    cases hu : unregister w h? reg with
    | none => exact hwf
    | some p =>
      obtain ⟨reg', ms⟩ := p
      exact wfRegistry_unregister hwf hu

/-! ### Projections of `moveResize` -/

theorem moveResize_width (gx gy gw gh : Int) (b : Borders) (curW curH : Int)
    (h? : Option SizeHints) (a : Gravity) :
    (moveResize gx gy gw gh b curW curH h? a).width
      = snapWidth h? curW (clampWidth h? (gw - (b.left + b.right))) := by
  simp only [moveResize]
  split <;> rfl

theorem moveResize_height (gx gy gw gh : Int) (b : Borders) (curW curH : Int)
    (h? : Option SizeHints) (a : Gravity) :
    (moveResize gx gy gw gh b curW curH h? a).height
      = snapHeight h? curH (clampHeight h? (gh - (b.top + b.bottom))) := by
  simp only [moveResize]
  split <;> rfl

/-! ### Arithmetic facts about the increment snap -/

theorem snappedW_le {h : SizeHints} (curW w : Int) (hk : (0 : Int) < h.width_inc) :
    snappedW h curW w ≤ w := by
  unfold snappedW
  have h1 : Int.fdiv (w - incBaseW h curW) h.width_inc * h.width_inc
      ≤ w - incBaseW h curW := by
    rw [Int.fdiv_eq_ediv _ (le_of_lt hk)]
    exact (Int.le_ediv_iff_mul_le hk).mp (le_refl _)
  omega

theorem le_snappedW {h : SizeHints} {curW w i : Int} (hk : (0 : Int) < h.width_inc)
    (hle : i * h.width_inc + incBaseW h curW ≤ w) :
    i * h.width_inc + incBaseW h curW ≤ snappedW h curW w := by
  unfold snappedW
  have h1 : i ≤ Int.fdiv (w - incBaseW h curW) h.width_inc := by
    rw [Int.fdiv_eq_ediv _ (le_of_lt hk)]
    exact (Int.le_ediv_iff_mul_le hk).mpr (by omega)
  have h2 : i * h.width_inc ≤ Int.fdiv (w - incBaseW h curW) h.width_inc * h.width_inc :=
    mul_le_mul_of_nonneg_right h1 (le_of_lt hk)
  omega

theorem snappedH_le {h : SizeHints} (curH hh : Int) (hk : (0 : Int) < h.height_inc) :
    snappedH h curH hh ≤ hh := by
  unfold snappedH
  have h1 : Int.fdiv (hh - incBaseH h curH) h.height_inc * h.height_inc
      ≤ hh - incBaseH h curH := by
    rw [Int.fdiv_eq_ediv _ (le_of_lt hk)]
    exact (Int.le_ediv_iff_mul_le hk).mp (le_refl _)
  omega

theorem le_snappedH {h : SizeHints} {curH hh i : Int} (hk : (0 : Int) < h.height_inc)
    (hle : i * h.height_inc + incBaseH h curH ≤ hh) :
    i * h.height_inc + incBaseH h curH ≤ snappedH h curH hh := by
  unfold snappedH
  have h1 : i ≤ Int.fdiv (hh - incBaseH h curH) h.height_inc := by
    rw [Int.fdiv_eq_ediv _ (le_of_lt hk)]
    exact (Int.le_ediv_iff_mul_le hk).mpr (by omega)
  have h2 : i * h.height_inc ≤ Int.fdiv (hh - incBaseH h curH) h.height_inc * h.height_inc :=
    mul_le_mul_of_nonneg_right h1 (le_of_lt hk)
  omega

theorem snappedW_dvd (h : SizeHints) (curW w : Int) :
    h.width_inc ∣ snappedW h curW w - incBaseW h curW := by
  unfold snappedW
  exact ⟨Int.fdiv (w - incBaseW h curW) h.width_inc, by ring⟩

theorem snappedH_dvd (h : SizeHints) (curH hh : Int) :
    h.height_inc ∣ snappedH h curH hh - incBaseH h curH := by
  unfold snappedH
  exact ⟨Int.fdiv (hh - incBaseH h curH) h.height_inc, by ring⟩

theorem snapWidth_inc_zero (h : SizeHints) (curW w : Int)
    (hinc : h.width_inc = 0) : snapWidth (some h) curW w = w := by
  simp [snapWidth, hinc]

theorem snapHeight_inc_zero (h : SizeHints) (curH hh : Int)
    (hinc : h.height_inc = 0) : snapHeight (some h) curH hh = hh := by
  simp [snapHeight, hinc]

theorem clampWidth_both (h : SizeHints) (w : Int) (hmin : h.min_width ≠ 0)
    (hmax : h.max_width ≠ 0) :
    clampWidth (some h) w = max (min w h.max_width) h.min_width := by
  simp [clampWidth, hmin, hmax]

theorem clampHeight_both (h : SizeHints) (hh : Int) (hmin : h.min_height ≠ 0)
    (hmax : h.max_height ≠ 0) :
    clampHeight (some h) hh = max (min hh h.max_height) h.min_height := by
  simp [clampHeight, hmin, hmax]

/-! ### Claim theorems -/

/-- C4: the effective-geometry computation returns a `Geometry` whose width
and height are the raw size plus the border totals and whose position is
`(x - left, y - top)` under the adjust quirk and `(x, y)` otherwise; in
particular raw geometry `(100, 100, 200, 150)` with borders
`(left 2, right 2, top 20, bottom 2)` and no adjust quirk yields
`(100, 100, 204, 172)`, and with zero borders and no quirk the output equals
the raw input geometry. -/
theorem effectiveGeometry_spec :
    (∀ (x y w h : Int) (b : Borders) (adjust : Bool),
      (effectiveGeometry x y w h b adjust).width = w + b.left + b.right
      ∧ (effectiveGeometry x y w h b adjust).height = h + b.top + b.bottom
      ∧ (effectiveGeometry x y w h b adjust).x
          = ((if adjust then x - b.left else x : Int) : ℚ)
      ∧ (effectiveGeometry x y w h b adjust).y
          = ((if adjust then y - b.top else y : Int) : ℚ))
    ∧ effectiveGeometry 100 100 200 150 ⟨2, 2, 20, 2⟩ false
        = ⟨100, 100, 204, 172⟩
    ∧ (∀ (x y w h : Int),
        effectiveGeometry x y w h ⟨0, 0, 0, 0⟩ false = ⟨(x : ℚ), (y : ℚ), w, h⟩) := by
  refine ⟨?_, ?_, ?_⟩
  · intro x y w h b adjust
    refine ⟨rfl, rfl, ?_, ?_⟩ <;> simp [effectiveGeometry, geometryMk]
  · simp [effectiveGeometry, geometryMk]
  · intro x y w h
    simp [effectiveGeometry, geometryMk]

/-- C10 (code bug): `Gravity.invert` succeeds only when both axes are
flipped; a single-axis flip (`vertical` only or `horizontal` only) leaves a
local variable unassigned and raises `UnboundLocalError` instead of
returning the half-inverted gravity. -/
theorem invert_unbound_bug :
    Gravity.invert ⟨0, 0⟩ true false = none
    ∧ Gravity.invert ⟨0, 0⟩ false true = none
    ∧ Gravity.invert ⟨0, 0⟩ true true = some ⟨1, 1⟩ := by
  refine ⟨rfl, rfl, ?_⟩
  simp [Gravity.invert]

/-- C9 (code bug): the dispatch loop runs while the handler registry is
non-empty and terminates once it becomes empty, but a later `register`
cannot restart it: `threading.Thread.start` raises `RuntimeError` for an
already-started thread object, so after the trace register → unregister-all
→ loop exit, the second `register` returns no mask set and the loop stays
dead instead of dispatching for the new handler. -/
theorem dispatch_loop_restart_bug :
    let s0 : DispatcherState := ⟨[], false, false⟩
    let p1 := registerD 5 ⟨0, 1, [2]⟩ s0
    let p2 := unregisterD 5 none p1.1
    let s3 := loopCheck p2.1
    let p4 := registerD 5 ⟨0, 1, [2]⟩ s3
    p1.1.alive = true ∧ p1.2 = some {1}
    ∧ loopCheck p1.1 = p1.1
    ∧ p2.1.handlers = []
    ∧ s3.alive = false
    ∧ p4.2 = none ∧ p4.1.alive = false ∧ p4.1.started = true := by
  decide

/-- C8 counterexample: unregistering a never-registered handler is not
always a harmless no-op — for a window with no registry entry it raises
`KeyError` (first conjunct), and for a known window it deletes whatever
handler occupies the given handler's event types, changing the registry
(second conjunct). -/
theorem unregister_missing_cex :
    unregister 7 (some ⟨2, 4, [5]⟩) ([] : Registry) = none
    ∧ unregister 9 (some ⟨2, 4, [5]⟩) [(9, [(5, ⟨1, 3, [5]⟩)])]
        = some ([], ∅) := by
  refine ⟨by decide, by decide⟩

/-- C8 (amended): unregistering for a window with no registry entry raises
`KeyError`; for a window with a nonempty handler map, unregistering a
handler none of whose declared event types is registered for that window
raises no error, leaves the registry unchanged and returns the window's
current mask set. -/
theorem unregister_missing :
    (∀ (reg : Registry) (w : Nat) (h? : Option Handler),
      alistGet? reg w = none → unregister w h? reg = none)
    ∧ (∀ (reg : Registry) (w : Nat) (h : Handler) (inner : WinHandlers),
        alistGet? reg w = some inner → inner ≠ [] →
        (∀ t ∈ h.types, t ∉ inner.map Prod.fst) →
        unregister w (some h) reg = some (reg, maskSet inner)) := by
  constructor
  · intro reg w h? hg
    simp [unregister, hg]
  · intro reg w h inner hg hne hdisj
    have hrm : removeTypes (some h) inner = inner := by
      simp only [removeTypes]
      exact foldl_erase_of_disjoint hdisj
    simp only [unregister, hg, hrm, if_neg hne]
    rw [alistSet_of_get_eq hg]

/-- C8 witness: a concrete no-op unregister for a known window with a
disjoint-typed handler, and the `KeyError` case on an empty registry. -/
theorem unregister_missing_wit :
    unregister 7 (some ⟨2, 4, [6]⟩) ([] : Registry) = none
    ∧ unregister 9 (some ⟨2, 4, [6]⟩) [(9, [(5, ⟨1, 3, [5]⟩)])]
        = some ([(9, [(5, ⟨1, 3, [5]⟩)])], {3}) := by
  constructor
  · exact unregister_missing.1 [] 7 (some ⟨2, 4, [6]⟩) rfl
  · have h := unregister_missing.2 [(9, [(5, ⟨1, 3, [5]⟩)])] 9 ⟨2, 4, [6]⟩
      [(5, ⟨1, 3, [5]⟩)] rfl (by decide) (by decide)
    simpa [maskSet] using h

/-- C7: for a window with a registry entry, `unregister(w, None)` drops the
window's entry entirely and returns the empty mask set; a subsequent event
for that window is reported as an unknown window and dropped, while an event
for a known window whose type has no registered handler is silently
skipped. -/
theorem unregister_all_drops_window :
    (∀ (reg : Registry) (w : Nat) (inner : WinHandlers),
      WFRegistry reg → alistGet? reg w = some inner →
      unregister w none reg = some (alistErase reg w, (∅ : Finset Nat))
      ∧ alistGet? (alistErase reg w) w = none
      ∧ ∀ t, dispatch (alistErase reg w) w t = DispatchResult.unknownWindow)
    ∧ (∀ (reg : Registry) (w t : Nat) (inner : WinHandlers),
        alistGet? reg w = some inner → alistGet? inner t = none →
        dispatch reg w t = DispatchResult.skipped) := by
  constructor
  · intro reg w inner hwf hg
    have hge : alistGet? (alistErase reg w) w = none :=
      alistGet?_erase_self hwf.1
    refine ⟨?_, hge, ?_⟩
    · simp [unregister, hg, removeTypes]
    · intro t
      simp [dispatch, hge]
  · intro reg w t inner hg hgt
    simp [dispatch, hg, hgt]

/-- C7 witness: unregistering all handlers of window 3 empties the registry,
after which an event for window 3 is dropped as unknown; an event of an
unhandled type for a known window is silently skipped. -/
theorem unregister_all_drops_window_wit :
    unregister 3 none [(3, [(9, (⟨1, 2, [9]⟩ : Handler))])] = some ([], ∅)
    ∧ dispatch ([] : Registry) 3 9 = DispatchResult.unknownWindow
    ∧ dispatch [(3, [(9, (⟨1, 2, [9]⟩ : Handler))])] 3 8 = DispatchResult.skipped := by
  have h1 := unregister_all_drops_window.1 [(3, [(9, (⟨1, 2, [9]⟩ : Handler))])] 3
    [(9, (⟨1, 2, [9]⟩ : Handler))] ⟨by decide, by decide⟩ rfl
  have h2 := unregister_all_drops_window.2 [(3, [(9, (⟨1, 2, [9]⟩ : Handler))])] 3 8
    [(9, (⟨1, 2, [9]⟩ : Handler))] rfl rfl
  exact ⟨h1.1, h1.2.2 9, h2⟩

/-- C5: any sequence of register/unregister operations from the empty
registry keeps at most one handler per (window, event-type) pair (unique
outer and inner keys), and registering a second handler sharing an event
type with an earlier one replaces it: an event of that type is delivered to
the second handler, never to the first. -/
theorem registry_unique_handler :
    (∀ ops : List RegOp, WFRegistry (ops.foldl applyOp ([] : Registry)))
    ∧ (∀ (reg : Registry) (w t : Nat) (h1 h2 : Handler),
        t ∈ h1.types → t ∈ h2.types →
        dispatch (register w h2 (register w h1 reg).1).1 w t
          = DispatchResult.delivered h2
        ∧ (h1 ≠ h2 →
          dispatch (register w h2 (register w h1 reg).1).1 w t
            ≠ DispatchResult.delivered h1)) := by
  constructor
  · have main : ∀ (ops : List RegOp) (reg : Registry), WFRegistry reg →
        WFRegistry (ops.foldl applyOp reg) := by
      intro ops
      induction ops with
      | nil => exact fun reg hwf => hwf
      | cons op ops ih =>
        intro reg hwf
        exact ih _ (wfRegistry_applyOp hwf op)
    exact fun ops => main ops [] wfRegistry_nil
  · intro reg w t h1 h2 ht1 ht2
    have hreg : alistGet? (register w h2 (register w h1 reg).1).1 w
        = some (h2.types.foldl (fun acc t' => alistSet acc t' h2)
            ((alistGet? (register w h1 reg).1 w).getD [])) := by
      simp only [register]
      exact alistGet?_set_self _ _ _
    have hinner : alistGet? (h2.types.foldl (fun acc t' => alistSet acc t' h2)
        ((alistGet? (register w h1 reg).1 w).getD [])) t = some h2 :=
      alistGet?_foldl_set (Or.inl ht2)
    have hdel : dispatch (register w h2 (register w h1 reg).1).1 w t
        = DispatchResult.delivered h2 := by
      simp only [dispatch, hreg, hinner]
    refine ⟨hdel, fun hne => ?_⟩
    rw [hdel]
    intro hcontra
    exact hne (by injection hcontra with hh; exact hh.symm)

/-- C5 witness: registering handler 1 then handler 2 for the same window and
shared type 7 delivers a type-7 event to handler 2 only. -/
theorem registry_unique_handler_wit :
    dispatch (register 1 (⟨2, 3, [7]⟩ : Handler)
        (register 1 (⟨1, 2, [7]⟩ : Handler) ([] : Registry)).1).1 1 7
      = DispatchResult.delivered ⟨2, 3, [7]⟩
    ∧ dispatch (register 1 (⟨2, 3, [7]⟩ : Handler)
        (register 1 (⟨1, 2, [7]⟩ : Handler) ([] : Registry)).1).1 1 7
      ≠ DispatchResult.delivered ⟨1, 2, [7]⟩ := by
  have h := registry_unique_handler.2 [] 1 7 ⟨1, 2, [7]⟩ ⟨2, 3, [7]⟩
    (by decide) (by decide)
  exact ⟨h.1, h.2 (by decide)⟩

/-- C6: `register` returns exactly the set of `handler.mask` values over the
handlers registered for the window after insertion; `unregister` returns the
recomputed set; and in the two-handler scenario the returned sets are
`{M1, M2}` after both registrations and `{M2}` after unregistering the
first. -/
theorem register_mask_set :
    (∀ (reg : Registry) (w : Nat) (h : Handler),
      (register w h reg).2 = maskSet ((alistGet? (register w h reg).1 w).getD []))
    ∧ (∀ (reg reg' : Registry) (w : Nat) (h? : Option Handler) (ms : Finset Nat),
        WFRegistry reg → unregister w h? reg = some (reg', ms) →
        ms = maskSet ((alistGet? reg' w).getD []))
    ∧ (∀ (w t1 t2 : Nat) (h1 h2 : Handler),
        h1.types = [t1] → h2.types = [t2] → t1 ≠ t2 →
        (register w h2 (register w h1 ([] : Registry)).1).2 = {h1.mask, h2.mask}
        ∧ unregister w (some h1) (register w h2 (register w h1 ([] : Registry)).1).1
            = some ([(w, [(t2, h2)])], {h2.mask})) := by
  refine ⟨?_, ?_, ?_⟩
  · intro reg w h
    simp [register, alistGet?_set_self]
  · intro reg reg' w h? ms hwf hu
    unfold unregister at hu
    cases hg : alistGet? reg w with
    | none => simp [hg] at hu
    | some inner =>
      simp only [hg] at hu
      split at hu
      · simp only [Option.some.injEq, Prod.mk.injEq] at hu
        obtain ⟨h1, h2⟩ := hu
        subst h1
        subst h2
        rw [alistGet?_erase_self hwf.1]
        simp [maskSet]
      · simp only [Option.some.injEq, Prod.mk.injEq] at hu
        obtain ⟨h1, h2⟩ := hu
        subst h1
        subst h2
        rw [alistGet?_set_self]
        rfl
  · intro w t1 t2 h1 h2 ht1 ht2 hne
    have hr1 : (register w h1 ([] : Registry)).1 = [(w, [(t1, h1)])] := by
      simp [register, ht1, alistGet?, alistSet]
    have hr2m : (register w h2 [(w, [(t1, h1)])]).2 = {h1.mask, h2.mask} := by
      simp [register, ht2, alistGet?, alistSet, maskSet, hne]
    have hr2r : (register w h2 [(w, [(t1, h1)])]).1
        = [(w, [(t1, h1), (t2, h2)])] := by
      simp [register, ht2, alistGet?, alistSet, hne]
    have hu : unregister w (some h1) [(w, [(t1, h1), (t2, h2)])]
        = some ([(w, [(t2, h2)])], {h2.mask}) := by
      simp [unregister, removeTypes, ht1, alistGet?, alistErase, alistSet, maskSet]
    rw [hr1]
    exact ⟨hr2m, by rw [hr2r]; exact hu⟩

/-- C6 witness: masks `{3, 4}` after registering both handlers, `{4}` after
unregistering the first. -/
theorem register_mask_set_wit :
    (register 1 (⟨2, 4, [11]⟩ : Handler)
        (register 1 (⟨1, 3, [10]⟩ : Handler) ([] : Registry)).1).2 = {3, 4}
    ∧ unregister 1 (some ⟨1, 3, [10]⟩)
        (register 1 (⟨2, 4, [11]⟩ : Handler)
          (register 1 (⟨1, 3, [10]⟩ : Handler) ([] : Registry)).1).1
        = some ([(1, [(11, ⟨2, 4, [11]⟩)])], {4}) := by
  have h := register_mask_set.2.2 1 10 11 ⟨1, 3, [10]⟩ ⟨2, 4, [11]⟩ rfl rfl
    (by decide)
  exact h

/-- C2: in `move_resize` the max clamp is applied before the min clamp on
each axis, so an inconsistent `min > max` resolves to the min bound; and
with both bounds present, consistent, and no increment hint, the returned
content size lies within the bounds. -/
theorem moveResize_bounds :
    ∀ (gx gy gw gh : Int) (b : Borders) (curW curH : Int) (h : SizeHints)
      (a : Gravity),
      (h.min_width ≠ 0 → h.max_width ≠ 0 → h.max_width < h.min_width →
        h.width_inc = 0 →
        (moveResize gx gy gw gh b curW curH (some h) a).width = h.min_width)
      ∧ (h.min_width ≠ 0 → h.max_width ≠ 0 → h.min_width ≤ h.max_width →
          h.width_inc = 0 →
          h.min_width ≤ (moveResize gx gy gw gh b curW curH (some h) a).width
          ∧ (moveResize gx gy gw gh b curW curH (some h) a).width ≤ h.max_width)
      ∧ (h.min_height ≠ 0 → h.max_height ≠ 0 → h.max_height < h.min_height →
          h.height_inc = 0 →
          (moveResize gx gy gw gh b curW curH (some h) a).height = h.min_height)
      ∧ (h.min_height ≠ 0 → h.max_height ≠ 0 → h.min_height ≤ h.max_height →
          h.height_inc = 0 →
          h.min_height ≤ (moveResize gx gy gw gh b curW curH (some h) a).height
          ∧ (moveResize gx gy gw gh b curW curH (some h) a).height ≤ h.max_height) := by
  intro gx gy gw gh b curW curH h a
  refine ⟨?_, ?_, ?_, ?_⟩
  · intro hmin hmax hlt hinc
    rw [moveResize_width, snapWidth_inc_zero _ _ _ hinc, clampWidth_both _ _ hmin hmax]
    omega
  · intro hmin hmax hle hinc
    rw [moveResize_width, snapWidth_inc_zero _ _ _ hinc, clampWidth_both _ _ hmin hmax]
    omega
  · intro hmin hmax hlt hinc
    rw [moveResize_height, snapHeight_inc_zero _ _ _ hinc, clampHeight_both _ _ hmin hmax]
    omega
  · intro hmin hmax hle hinc
    rw [moveResize_height, snapHeight_inc_zero _ _ _ hinc, clampHeight_both _ _ hmin hmax]
    omega

/-- C2 witness: inconsistent bounds `min 10 > max 5` resolve to width and
height 10; consistent bounds `[2, 8]` contain the clamped size. -/
theorem moveResize_bounds_wit :
    ((moveResize 0 0 50 50 ⟨0, 0, 0, 0⟩ 10 10
        (some ⟨false, 10, 10, 5, 5, 0, 0, 0, 0⟩) ⟨0, 0⟩).width = 10
      ∧ (moveResize 0 0 50 50 ⟨0, 0, 0, 0⟩ 10 10
        (some ⟨false, 10, 10, 5, 5, 0, 0, 0, 0⟩) ⟨0, 0⟩).height = 10)
    ∧ ((2 : Int) ≤ (moveResize 0 0 50 50 ⟨0, 0, 0, 0⟩ 10 10
        (some ⟨false, 2, 2, 8, 8, 0, 0, 0, 0⟩) ⟨0, 0⟩).width
      ∧ (moveResize 0 0 50 50 ⟨0, 0, 0, 0⟩ 10 10
        (some ⟨false, 2, 2, 8, 8, 0, 0, 0, 0⟩) ⟨0, 0⟩).width ≤ 8) := by
  have h1 := moveResize_bounds 0 0 50 50 ⟨0, 0, 0, 0⟩ 10 10
    ⟨false, 10, 10, 5, 5, 0, 0, 0, 0⟩ ⟨0, 0⟩
  have h2 := moveResize_bounds 0 0 50 50 ⟨0, 0, 0, 0⟩ 10 10
    ⟨false, 2, 2, 8, 8, 0, 0, 0, 0⟩ ⟨0, 0⟩
  exact ⟨⟨h1.1 (by decide) (by decide) (by decide) rfl,
          h1.2.2.1 (by decide) (by decide) (by decide) rfl⟩,
         h2.2.1 (by decide) (by decide) (by decide) rfl⟩

/-- C3 counterexample: with static win-gravity hints and a nonzero left
border the final content size equals the requested content size
(`10 - (2 + 0) = 8` and `10 - (0 + 0) = 10`), yet the emitted x coordinate
differs from the requested x (2 instead of 0), so "no drift" fails as
universally stated. -/
theorem moveResize_anchor_cex :
    (moveResize 0 0 10 10 ⟨2, 0, 0, 0⟩ 10 10
        (some ⟨true, 0, 0, 0, 0, 0, 0, 0, 0⟩) ⟨0, 0⟩).width = 10 - (2 + 0)
    ∧ (moveResize 0 0 10 10 ⟨2, 0, 0, 0⟩ 10 10
        (some ⟨true, 0, 0, 0, 0, 0, 0, 0, 0⟩) ⟨0, 0⟩).height = 10 - (0 + 0)
    ∧ (moveResize 0 0 10 10 ⟨2, 0, 0, 0⟩ 10 10
        (some ⟨true, 0, 0, 0, 0, 0, 0, 0, 0⟩) ⟨0, 0⟩).x ≠ 0 := by
  refine ⟨by decide, by decide, by decide⟩

/-- C3 (amended): the emitted position equals the requested position plus
the static-gravity border offset (`(left, top)` when the hints declare
static win-gravity, zero otherwise), shifted by
`(requested_content_size - final_size) * anchor` on each axis; in
particular, with no static offset, a final size equal to the requested
content size leaves the position exactly at the requested coordinates. -/
theorem moveResize_anchor :
    ∀ (gx gy gw gh : Int) (b : Borders) (curW curH : Int)
      (h? : Option SizeHints) (a : Gravity),
      (moveResize gx gy gw gh b curW curH h? a).x
        = ((gx + staticOffsetX h? b : Int) : ℚ)
          + ((gw - (b.left + b.right)
              - (moveResize gx gy gw gh b curW curH h? a).width : Int) : ℚ) * a.x
      ∧ (moveResize gx gy gw gh b curW curH h? a).y
        = ((gy + staticOffsetY h? b : Int) : ℚ)
          + ((gh - (b.top + b.bottom)
              - (moveResize gx gy gw gh b curW curH h? a).height : Int) : ℚ) * a.y := by
  intro gx gy gw gh b curW curH h? a
  rw [moveResize_width, moveResize_height]
  simp only [moveResize]
  split
  · constructor <;> push_cast <;> ring
  · rename_i heq
    rw [not_not] at heq
    have hw2 : snapWidth h? curW (clampWidth h? (gw - (b.left + b.right)))
        = gw - (b.left + b.right) := congrArg Prod.fst heq
    have hh2 : snapHeight h? curH (clampHeight h? (gh - (b.top + b.bottom)))
        = gh - (b.top + b.bottom) := congrArg Prod.snd heq
    rw [hw2, hh2]
    constructor <;> push_cast <;> ring

/-- C1 counterexample: with `height_inc = 5`, `base_height = 4`, absent
(`0`) `min_height`, current content height 40 and requested content height
2, the largest grid value `4 + 5*j` not exceeding 2 is `-1`; the claim (no
bump when `min_height` is absent) therefore predicts a returned height of
`-1`, but the code's guard on line 625 tests `hints.height_inc` instead of
`hints.min_height` and bumps, returning 4. -/
theorem moveResize_increments_cex :
    (moveResize 0 0 40 2 ⟨0, 0, 0, 0⟩ 40 40
        (some ⟨false, 0, 0, 0, 0, 0, 5, 0, 4⟩) ⟨0, 0⟩).height = 4
    ∧ snappedH ⟨false, 0, 0, 0, 0, 0, 5, 0, 4⟩ 40
        (clampHeight (some ⟨false, 0, 0, 0, 0, 0, 5, 0, 4⟩) (2 - (0 + 0))) = -1
    ∧ ((4 : Int) ≠ -1) := by
  refine ⟨by decide, by decide, by decide⟩

/-- C1 (amended): with a positive `width_inc` the returned width is the
floor snap of the max/min-clamped width onto the grid
`incBaseW + j * width_inc` — the largest grid value not exceeding the
pre-increment (clamped) width — with one extra increment added when a
present (`≠ 0`) `min_width` exceeds the snapped value; the result minus the
base is always divisible by the increment.  The same holds for height
except for the bump guard, which the code ties to `height_inc` (always true
there) instead of `min_height`: one increment is added whenever the snapped
height is below `min_height`, also when `min_height` is absent (zero). -/
theorem moveResize_increments :
    ∀ (gx gy gw gh : Int) (b : Borders) (curW curH : Int) (h : SizeHints)
      (a : Gravity),
      ((0 : Int) < h.width_inc →
        ((moveResize gx gy gw gh b curW curH (some h) a).width
            = (if h.min_width ≠ 0
                  ∧ snappedW h curW (clampWidth (some h) (gw - (b.left + b.right)))
                    < h.min_width
               then snappedW h curW (clampWidth (some h) (gw - (b.left + b.right)))
                    + h.width_inc
               else snappedW h curW (clampWidth (some h) (gw - (b.left + b.right)))))
        ∧ snappedW h curW (clampWidth (some h) (gw - (b.left + b.right)))
            ≤ clampWidth (some h) (gw - (b.left + b.right))
        ∧ (∀ i : Int,
            i * h.width_inc + incBaseW h curW
              ≤ clampWidth (some h) (gw - (b.left + b.right)) →
            i * h.width_inc + incBaseW h curW
              ≤ snappedW h curW (clampWidth (some h) (gw - (b.left + b.right))))
        ∧ Int.fmod
            ((moveResize gx gy gw gh b curW curH (some h) a).width - incBaseW h curW)
            h.width_inc = 0)
      ∧ ((0 : Int) < h.height_inc →
        ((moveResize gx gy gw gh b curW curH (some h) a).height
            = (if snappedH h curH (clampHeight (some h) (gh - (b.top + b.bottom)))
                  < h.min_height
               then snappedH h curH (clampHeight (some h) (gh - (b.top + b.bottom)))
                    + h.height_inc
               else snappedH h curH (clampHeight (some h) (gh - (b.top + b.bottom)))))
        ∧ snappedH h curH (clampHeight (some h) (gh - (b.top + b.bottom)))
            ≤ clampHeight (some h) (gh - (b.top + b.bottom))
        ∧ (∀ i : Int,
            i * h.height_inc + incBaseH h curH
              ≤ clampHeight (some h) (gh - (b.top + b.bottom)) →
            i * h.height_inc + incBaseH h curH
              ≤ snappedH h curH (clampHeight (some h) (gh - (b.top + b.bottom))))
        ∧ Int.fmod
            ((moveResize gx gy gw gh b curW curH (some h) a).height - incBaseH h curH)
            h.height_inc = 0) := by
  intro gx gy gw gh b curW curH h a
  constructor
  · intro hk
    have hkne : h.width_inc ≠ 0 := ne_of_gt hk
    have heq : (moveResize gx gy gw gh b curW curH (some h) a).width
        = (if h.min_width ≠ 0
              ∧ snappedW h curW (clampWidth (some h) (gw - (b.left + b.right)))
                < h.min_width
           then snappedW h curW (clampWidth (some h) (gw - (b.left + b.right)))
                + h.width_inc
           else snappedW h curW (clampWidth (some h) (gw - (b.left + b.right)))) := by
      rw [moveResize_width]
      simp [snapWidth, hkne]
    refine ⟨heq, snappedW_le _ _ hk, fun i hi => le_snappedW hk hi, ?_⟩
    rw [heq]
    have hdvd : h.width_inc ∣
        ((if h.min_width ≠ 0
            ∧ snappedW h curW (clampWidth (some h) (gw - (b.left + b.right)))
              < h.min_width
          then snappedW h curW (clampWidth (some h) (gw - (b.left + b.right)))
              + h.width_inc
          else snappedW h curW (clampWidth (some h) (gw - (b.left + b.right))))
          - incBaseW h curW) := by
      split
      · have := snappedW_dvd h curW (clampWidth (some h) (gw - (b.left + b.right)))
        obtain ⟨c, hc⟩ := this
        exact ⟨c + 1, by linarith [hc]⟩
      · exact snappedW_dvd h curW (clampWidth (some h) (gw - (b.left + b.right)))
    rw [Int.fmod_eq_emod _ (le_of_lt hk)]
    exact Int.emod_eq_zero_of_dvd hdvd
  · intro hk
    have hkne : h.height_inc ≠ 0 := ne_of_gt hk
    have heq : (moveResize gx gy gw gh b curW curH (some h) a).height
        = (if snappedH h curH (clampHeight (some h) (gh - (b.top + b.bottom)))
              < h.min_height
           then snappedH h curH (clampHeight (some h) (gh - (b.top + b.bottom)))
                + h.height_inc
           else snappedH h curH (clampHeight (some h) (gh - (b.top + b.bottom)))) := by
      rw [moveResize_height]
      simp [snapHeight, hkne]
    refine ⟨heq, snappedH_le _ _ hk, fun i hi => le_snappedH hk hi, ?_⟩
    rw [heq]
    have hdvd : h.height_inc ∣
        ((if snappedH h curH (clampHeight (some h) (gh - (b.top + b.bottom)))
              < h.min_height
          then snappedH h curH (clampHeight (some h) (gh - (b.top + b.bottom)))
              + h.height_inc
          else snappedH h curH (clampHeight (some h) (gh - (b.top + b.bottom))))
          - incBaseH h curH) := by
      split
      · have := snappedH_dvd h curH (clampHeight (some h) (gh - (b.top + b.bottom)))
        obtain ⟨c, hc⟩ := this
        exact ⟨c + 1, by linarith [hc]⟩
      · exact snappedH_dvd h curH (clampHeight (some h) (gh - (b.top + b.bottom)))
    rw [Int.fmod_eq_emod _ (le_of_lt hk)]
    exact Int.emod_eq_zero_of_dvd hdvd

/-- C1 witness: `width_inc 5, base_width 3` snaps a clamped width of 27 to
23; `height_inc 7, base_height 4` snaps a clamped height of 30 to 25. -/
theorem moveResize_increments_wit :
    (0 : Int) < 5 ∧ (0 : Int) < 7
    ∧ (moveResize 0 0 27 30 ⟨0, 0, 0, 0⟩ 20 20
        (some ⟨false, 0, 0, 0, 0, 5, 7, 3, 4⟩) ⟨0, 0⟩).width = 23
    ∧ (moveResize 0 0 27 30 ⟨0, 0, 0, 0⟩ 20 20
        (some ⟨false, 0, 0, 0, 0, 5, 7, 3, 4⟩) ⟨0, 0⟩).height = 25 := by
  have hw := (moveResize_increments 0 0 27 30 ⟨0, 0, 0, 0⟩ 20 20
      ⟨false, 0, 0, 0, 0, 5, 7, 3, 4⟩ ⟨0, 0⟩).1 (by decide)
  have hh := (moveResize_increments 0 0 27 30 ⟨0, 0, 0, 0⟩ 20 20
      ⟨false, 0, 0, 0, 0, 5, 7, 3, 4⟩ ⟨0, 0⟩).2 (by decide)
  refine ⟨by decide, by decide, ?_, ?_⟩
  · rw [hw.1]
    decide
  · rw [hh.1]
    decide

end PyWO
